import Mathlib

/-!
# Syncer registration (`pkg/controllers/register.go`)

A shallow embedding of the controller registry and of the service-mapping
parser found in `pkg/controllers/register.go`, followed by theorems about them.

Modelling conventions

* A Go `string` is a `List Char`.  All separators used by the code (`=`, `/`,
  `,`) are ASCII, so splitting by bytes and splitting by characters agree.
* A Go `error` is represented by its message (`Error()`); `nil` is `none`.
* A function returning `(T, error)` returns `Option T × Option Err`, where
  `none` in the first component is Go's `nil`.
* A Go `map` is an association list with pairwise distinct keys; the order of
  the list is not observable through `Table.get` and `Table.len`.
-/

namespace Vcluster

/-! ## Strings, errors and library functions -/

/-- A Go string. -/
abbrev GoString := List Char

/-- A Go error value, identified with its message. -/
abbrev Err := GoString

/-- The function `strings.Split(s, sep)` for a one-character separator: the
pieces of `s` between consecutive occurrences of `sep`; always at least one
piece (`strings.Split("", "=")` is `[""]`). -/
def Split : GoString → Char → List GoString
  | [], _ => [[]]
  | c :: cs, sep =>
    if c = sep then [] :: Split cs sep
    else
      match Split cs sep with
      | [] => [[c]]
      | piece :: pieces => (c :: piece) :: pieces

/-- The function `errors.Wrapf(err, format, args...)` of `github.com/pkg/errors`
on a non-nil error: the message is the formatted text, `": "`, and the message
of the cause. -/
def Wrapf (err : Err) (message : GoString) : Err :=
  message ++ ": ".toList ++ err

/-! ## The mapping table -/

/-- The type `types.NamespacedName`. -/
structure NamespacedName where
  Namespace : GoString
  Name : GoString
deriving DecidableEq

instance : Inhabited NamespacedName := ⟨{ Namespace := [], Name := [] }⟩

/-- The type `map[string]types.NamespacedName`. -/
abbrev Table := List (GoString × NamespacedName)

/-- The map assignment `ret[k] = v`: overwrite the entry of `k` when there is
one, add an entry otherwise. -/
def Table.set : Table → GoString → NamespacedName → Table
  | [], k, v => [(k, v)]
  | (k0, v0) :: rest, k, v =>
    if k0 = k then (k, v) :: rest else (k0, v0) :: Table.set rest k v

/-- The map lookup `ret[k]` (with the presence flag). -/
def Table.get : Table → GoString → Option NamespacedName
  | [], _ => none
  | (k0, v0) :: rest, k => if k0 = k then some v0 else Table.get rest k

/-- The number of entries, `len(ret)`. -/
def Table.len (ret : Table) : Nat := ret.length

/-! ## The function `parseMapping` -/

/-- The message of six of the seven error returns of `parseMapping`. -/
def errServiceMapping : Err :=
  "invalid service mapping, please use namespace1/service1=service2".toList

/-- The message returned when the to side is a bare name and
`toDefaultNamespace` is empty. -/
def errServiceMappingTo : Err :=
  "invalid service mapping, please use namespace1/service1=namespace2/service2".toList

/-- The second half of the loop body of `parseMapping` (`toSplitted` onwards):
given the final `splitted[0]` and `splitted[1]`, the key and the value assigned
to `ret`, or the error returned. -/
def parseMappingTo (toDefaultNamespace splitted0 splitted1 : GoString) :
    Except Err (GoString × NamespacedName) :=
  let toSplitted := Split splitted1 '/'
  if toSplitted.length = 1 then
    if toDefaultNamespace = [] then .error errServiceMappingTo
    else .ok (splitted0, { Namespace := toDefaultNamespace, Name := splitted1 })
  else if toSplitted.length = 2 then
    if toDefaultNamespace ≠ [] then .error errServiceMapping
    else .ok (splitted0, { Namespace := toSplitted.getD 0 [], Name := toSplitted.getD 1 [] })
  else .error errServiceMapping

/-- The loop body of `parseMapping` for one entry `m`: the key and the value
assigned to `ret` in this iteration, or the error returned. -/
def parseMappingEntry (fromDefaultNamespace toDefaultNamespace m : GoString) :
    Except Err (GoString × NamespacedName) :=
  let splitted := Split m '='
  if splitted.length ≠ 2 then .error errServiceMapping
  else if (splitted.getD 0 []).length = 0 ∨ (splitted.getD 1 []).length = 0 then
    .error errServiceMapping
  else
    let fromSplitted := Split (splitted.getD 0 []) '/'
    if fromSplitted.length = 1 then
      if fromDefaultNamespace = [] then .error errServiceMapping
      else
        parseMappingTo toDefaultNamespace
          (fromDefaultNamespace ++ "/".toList ++ splitted.getD 0 []) (splitted.getD 1 [])
    else if fromSplitted.length ≠ 2 then .error errServiceMapping
    else parseMappingTo toDefaultNamespace (splitted.getD 0 []) (splitted.getD 1 [])

/-- The loop `for _, m := range mappings` of `parseMapping`, started with the
table `ret`. -/
def parseMappingLoop (fromDefaultNamespace toDefaultNamespace : GoString) :
    List GoString → Table → Option Table × Option Err
  | [], ret => (some ret, none)
  | m :: mappings, ret =>
    match parseMappingEntry fromDefaultNamespace toDefaultNamespace m with
    | .error err => (none, some err)
    | .ok (k, v) =>
      parseMappingLoop fromDefaultNamespace toDefaultNamespace mappings (ret.set k v)

/-- The function `parseMapping`. -/
def parseMapping (mappings : List GoString)
    (fromDefaultNamespace toDefaultNamespace : GoString) : Option Table × Option Err :=
  parseMappingLoop fromDefaultNamespace toDefaultNamespace mappings []

/-! ## The registry and the function `Create` -/

/-- The fields of `ctx.Options` this file reads. -/
structure VirtualClusterOptions where
  TargetNamespace : GoString
  EnforcePodSecurityStandard : GoString
  MapHostServices : List GoString
  MapVirtualServices : List GoString

/-- The type `context.ControllerContext`, without the manager, client and
`context.Context` handles.  `Controllers` is the `map[string]bool` of enabled
controllers; a name that is not a key reads as `false`. -/
structure ControllerContext where
  Options : VirtualClusterOptions
  Controllers : GoString → Bool
  CurrentNamespace : GoString

/-- The type `synccontext.RegisterContext`, without the handles. -/
structure RegisterContext where
  Options : VirtualClusterOptions
  Controllers : GoString → Bool
  TargetNamespace : GoString
  CurrentNamespace : GoString

/-- The function `ToRegisterContext`. -/
def ToRegisterContext (ctx : ControllerContext) : RegisterContext :=
  { Options := ctx.Options
    Controllers := ctx.Controllers
    TargetNamespace := ctx.Options.TargetNamespace
    CurrentNamespace := ctx.CurrentNamespace }

/-- A `syncer.Object`: its `Name()` and whether its dynamic type passes the
type assertions `v.(syncer.FakeSyncer)` and `v.(syncer.Syncer)`. -/
structure Object where
  Name : GoString
  isFakeSyncer : Bool
  isSyncer : Bool
deriving DecidableEq

/-- The type `func(*synccontext.RegisterContext) (syncer.Object, error)`. -/
abbrev Constructor := RegisterContext → Except Err Object

/-- The `New` functions of the resource packages, which `ResourceControllers`
refers to. -/
structure ResourcePackages where
  servicesNew : Constructor
  configmapsNew : Constructor
  secretsNew : Constructor
  endpointsNew : Constructor
  podsNew : Constructor
  eventsNew : Constructor
  persistentvolumeclaimsNew : Constructor
  ingressesNew : Constructor
  ingressclassesNew : Constructor
  storageclassesNew : Constructor
  storageclassesNewLegacy : Constructor
  priorityclassesNew : Constructor
  nodesNew : Constructor
  poddisruptionbudgetsNew : Constructor
  networkpoliciesNew : Constructor
  volumesnapshotclassesNew : Constructor
  volumesnapshotsNew : Constructor
  volumesnapshotcontentsNew : Constructor
  serviceaccountsNew : Constructor
  persistentvolumesNew : Constructor

/-- The function `newControllers`. -/
def newControllers (funcs : List Constructor) : List Constructor := [] ++ funcs

/-- The entries of the map `ResourceControllers`, in the order of the source
text.  A `range` over the map may visit them in any order. -/
def ResourceControllers (p : ResourcePackages) : List (GoString × List Constructor) :=
  [ ("services".toList, newControllers [p.servicesNew]),
    ("configmaps".toList, newControllers [p.configmapsNew]),
    ("secrets".toList, newControllers [p.secretsNew]),
    ("endpoints".toList, newControllers [p.endpointsNew]),
    ("pods".toList, newControllers [p.podsNew]),
    ("events".toList, newControllers [p.eventsNew]),
    ("persistentvolumeclaims".toList, newControllers [p.persistentvolumeclaimsNew]),
    ("ingresses".toList, newControllers [p.ingressesNew, p.ingressclassesNew]),
    ("storageclasses".toList, newControllers [p.storageclassesNew]),
    ("legacy-storageclasses".toList, newControllers [p.storageclassesNewLegacy]),
    ("priorityclasses".toList, newControllers [p.priorityclassesNew]),
    ("nodes,fake-nodes".toList, newControllers [p.nodesNew]),
    ("poddisruptionbudgets".toList, newControllers [p.poddisruptionbudgetsNew]),
    ("networkpolicies".toList, newControllers [p.networkpoliciesNew]),
    ("volumesnapshots".toList,
      newControllers [p.volumesnapshotclassesNew, p.volumesnapshotsNew,
        p.volumesnapshotcontentsNew]),
    ("serviceaccounts".toList, newControllers [p.serviceaccountsNew]),
    ("persistentvolumes,fake-persistentvolumes".toList,
      newControllers [p.persistentvolumesNew]) ]

/-- What `Create` does that can be observed besides its result. -/
inductive CreateEvent where
  /-- The read `ctx.Controllers[controller]`. -/
  | lookup (controller : GoString)
  /-- The log line `Start <controller> sync controller` and the call
  `controllerNew(registerContext)` that follows it. -/
  | construct (controller : GoString)
deriving DecidableEq

/-- The innermost loop of `Create`, `for _, controller := range controllers`,
for one constructor: the list of units after it (or the error `Create`
returns), and what happened. -/
def CreateControllers (ctx : ControllerContext) (controllerNew : Constructor) :
    List GoString → List Object → Except Err (List Object) × List CreateEvent
  | [], syncers => (.ok syncers, [])
  | controller :: controllers, syncers =>
    if ctx.Controllers controller then
      match controllerNew (ToRegisterContext ctx) with
      | .error err =>
        (.error (Wrapf err ("register ".toList ++ controller ++ " controller".toList)),
          [.lookup controller, .construct controller])
      | .ok ctrl => (.ok (syncers ++ [ctrl]), [.lookup controller, .construct controller])
    else
      ((CreateControllers ctx controllerNew controllers syncers).1,
        .lookup controller :: (CreateControllers ctx controllerNew controllers syncers).2)

/-- The loop `for _, controllerNew := range v` of `Create`, for the key `k`. -/
def CreateGroup (ctx : ControllerContext) (k : GoString) :
    List Constructor → List Object → Except Err (List Object) × List CreateEvent
  | [], syncers => (.ok syncers, [])
  | controllerNew :: v, syncers =>
    match CreateControllers ctx controllerNew (Split k ',') syncers with
    | (.error err, events) => (.error err, events)
    | (.ok syncers1, events) =>
      ((CreateGroup ctx k v syncers1).1, events ++ (CreateGroup ctx k v syncers1).2)

/-- The loop `for k, v := range ResourceControllers` of `Create`, over the
entries in the order they are visited. -/
def CreateLoop (ctx : ControllerContext) :
    List (GoString × List Constructor) → List Object →
      Except Err (List Object) × List CreateEvent
  | [], syncers => (.ok syncers, [])
  | (k, v) :: registry, syncers =>
    match CreateGroup ctx k v syncers with
    | (.error err, events) => (.error err, events)
    | (.ok syncers1, events) =>
      ((CreateLoop ctx registry syncers1).1, events ++ (CreateLoop ctx registry syncers1).2)

/-- The function `Create`, for the entries of `ResourceControllers` in the
order `registry` in which the `range` statement visits them: the two results
of the function, and what happened. -/
def Create (registry : List (GoString × List Constructor)) (ctx : ControllerContext) :
    (Option (List Object) × Option Err) × List CreateEvent :=
  match CreateLoop ctx registry [] with
  | (.ok syncers, events) => ((some syncers, none), events)
  | (.error err, events) => ((none, some err), events)

/-! ## The function `RegisterControllers` -/

/-- The results of the calls `RegisterControllers` makes into other packages.
Starting a manager in a goroutine and waiting for its cache are not modelled. -/
structure Collaborators where
  /-- The call `k8sdefaultendpoint.Register(ctx)`. -/
  k8sdefaultendpointRegister : Option Err
  /-- The call `controller.SetupWithManager` in `registerPodSecurityController`. -/
  podSecuritySetup : Option Err
  /-- The call `controller.SetupWithManager` in `registerCoreDNSController`. -/
  coreDNSSetup : Option Err
  /-- The call `ctrl.NewManager` in `registerInitManifestsController`. -/
  currentNamespaceManagerNew : Option Err
  /-- The call `plugin.ConvertRestConfigToClientConfig`. -/
  convertRestConfig : Option Err
  /-- The call `vconfig.RawConfig()`. -/
  rawConfig : Option Err
  /-- The call `controller.SetupWithManager` in `registerInitManifestsController`. -/
  initManifestsSetup : Option Err
  /-- The call `ctrl.NewManager` in `registerServiceSyncControllers`. -/
  globalLocalManagerNew : Option Err
  /-- The call `controller.Register()` of the host service syncer. -/
  hostServiceSyncerRegister : Table → Option Err
  /-- The call `controller.Register()` of the virtual service syncer. -/
  virtualServiceSyncerRegister : Table → Option Err
  /-- The call `syncer.RegisterFakeSyncer(registerContext, fakeSyncer)`. -/
  RegisterFakeSyncer : Object → Option Err
  /-- The call `syncer.RegisterSyncer(registerContext, realSyncer)`. -/
  RegisterSyncer : Object → Option Err

/-- The function `errors.Wrap(err, message)`. -/
def Wrap (err : Err) (message : GoString) : Err := Wrapf err message

/-- What `RegisterControllers` hands to a registration path. -/
inductive RegisterEvent where
  /-- The host service syncer, with its `SyncServices`, was registered. -/
  | hostServiceSyncer (mapping : Table)
  /-- The virtual service syncer, with its `SyncServices`, was registered. -/
  | virtualServiceSyncer (mapping : Table)
  /-- The call `syncer.RegisterFakeSyncer(registerContext, v)`. -/
  | fakeSyncer (v : Object)
  /-- The call `syncer.RegisterSyncer(registerContext, v)`. -/
  | realSyncer (v : Object)
deriving DecidableEq

/-- The function `registerPodSecurityController`. -/
def registerPodSecurityController (c : Collaborators) : Option Err :=
  match c.podSecuritySetup with
  | some err => some ("unable to setup pod security controller: ".toList ++ err)
  | none => none

/-- The function `registerCoreDNSController`. -/
def registerCoreDNSController (c : Collaborators) : Option Err :=
  match c.coreDNSSetup with
  | some err => some ("unable to setup CoreDNS NodeHosts controller: ".toList ++ err)
  | none => none

/-- The function `registerInitManifestsController`. -/
def registerInitManifestsController (c : Collaborators) (ctx : ControllerContext) :
    Option Err :=
  match (if ctx.Options.TargetNamespace ≠ ctx.CurrentNamespace
      then c.currentNamespaceManagerNew else none) with
  | some err => some err
  | none =>
    match c.convertRestConfig with
    | some err => some err
    | none =>
      match c.rawConfig with
      | some err => some err
      | none =>
        match c.initManifestsSetup with
        | some err =>
          some ("unable to setup init manifests configmap controller: ".toList ++ err)
        | none => none

/-- The second block of `registerServiceSyncControllers`
(`MapVirtualServices`). -/
def registerVirtualServiceSync (c : Collaborators) (ctx : ControllerContext) :
    Option Err × List RegisterEvent :=
  if ctx.Options.MapVirtualServices.length > 0 then
    match parseMapping ctx.Options.MapVirtualServices [] ctx.Options.TargetNamespace with
    | (_, some err) => (some (Wrap err "parse physical service mapping".toList), [])
    | (mapping, none) =>
      match c.virtualServiceSyncerRegister (mapping.getD []) with
      | some err =>
        (some (Wrap err "register virtual service sync controller".toList),
          [.virtualServiceSyncer (mapping.getD [])])
      | none => (none, [.virtualServiceSyncer (mapping.getD [])])
  else (none, [])

/-- The function `registerServiceSyncControllers`. -/
def registerServiceSyncControllers (c : Collaborators) (ctx : ControllerContext) :
    Option Err × List RegisterEvent :=
  if ctx.Options.MapHostServices.length > 0 then
    match parseMapping ctx.Options.MapHostServices ctx.Options.TargetNamespace [] with
    | (_, some err) => (some (Wrap err "parse physical service mapping".toList), [])
    | (mapping, none) =>
      match c.globalLocalManagerNew with
      | some err => (some err, [])
      | none =>
        match c.hostServiceSyncerRegister (mapping.getD []) with
        | some err =>
          (some (Wrap err "register physical service sync controller".toList),
            [.hostServiceSyncer (mapping.getD [])])
        | none =>
          ((registerVirtualServiceSync c ctx).1,
            .hostServiceSyncer (mapping.getD []) :: (registerVirtualServiceSync c ctx).2)
  else registerVirtualServiceSync c ctx

/-- The loop `for _, v := range syncers` of `RegisterControllers`. -/
def registerSyncers (c : Collaborators) : List Object → Option Err × List RegisterEvent
  | [] => (none, [])
  | v :: syncers =>
    if v.isFakeSyncer then
      match c.RegisterFakeSyncer v with
      | some err =>
        (some (Wrapf err ("start ".toList ++ v.Name ++ " syncer".toList)), [.fakeSyncer v])
      | none => ((registerSyncers c syncers).1, .fakeSyncer v :: (registerSyncers c syncers).2)
    else if v.isSyncer then
      match c.RegisterSyncer v with
      | some err =>
        (some (Wrapf err ("start ".toList ++ v.Name ++ " syncer".toList)), [.realSyncer v])
      | none => ((registerSyncers c syncers).1, .realSyncer v :: (registerSyncers c syncers).2)
    else
      (some ("syncer ".toList ++ v.Name ++
        " does not implement fake syncer or syncer interface".toList), [])

/-- The function `RegisterControllers`: the error it returns, and what it
handed to a registration path. -/
def RegisterControllers (c : Collaborators) (ctx : ControllerContext)
    (syncers : List Object) : Option Err × List RegisterEvent :=
  match c.k8sdefaultendpointRegister with
  | some err => (some err, [])
  | none =>
    match (if ctx.Options.EnforcePodSecurityStandard ≠ []
        then registerPodSecurityController c else none) with
    | some err => (some err, [])
    | none =>
      match registerCoreDNSController c with
      | some err => (some err, [])
      | none =>
        match registerInitManifestsController c ctx with
        | some err => (some err, [])
        | none =>
          match registerServiceSyncControllers c ctx with
          | (some err, events) => (some err, events)
          | (none, events) =>
            ((registerSyncers c syncers).1, events ++ (registerSyncers c syncers).2)

/-! ## The specification, in its own words -/

/-- The text of an entry before its first `=`. -/
def fromSide (m : GoString) : GoString := m.takeWhile (· ≠ '=')

/-- The text of an entry after its first `=`. -/
def toSide (m : GoString) : GoString := (m.dropWhile (· ≠ '=')).drop 1

/-- The number of `/`-separated segments of a side. -/
def segments (s : GoString) : Nat := s.count '/' + 1

/-- The validation rules (i), (ii), (iii) of the mapping grammar. -/
def ValidEntry (fromDefaultNamespace toDefaultNamespace m : GoString) : Prop :=
  (m.count '=' = 1 ∧ fromSide m ≠ [] ∧ toSide m ≠ []) ∧
  ((segments (fromSide m) = 1 ∨ segments (fromSide m) = 2) ∧
    (segments (fromSide m) = 1 → fromDefaultNamespace ≠ [])) ∧
  ((segments (toSide m) = 1 ∨ segments (toSide m) = 2) ∧
    (segments (toSide m) = 1 → toDefaultNamespace ≠ []) ∧
    (segments (toSide m) = 2 → toDefaultNamespace = []))

instance (fd td m : GoString) : Decidable (ValidEntry fd td m) := by
  unfold ValidEntry; infer_instance

/-- The fully qualified key the specification gives to a from side `F`. -/
def specKey (fromDefaultNamespace F : GoString) : GoString :=
  if '/' ∈ F then F else fromDefaultNamespace ++ "/".toList ++ F

/-- The identity the specification gives to a to side `T`. -/
def specValue (toDefaultNamespace T : GoString) : NamespacedName :=
  if '/' ∈ T then
    { Namespace := T.takeWhile (· ≠ '/'), Name := (T.dropWhile (· ≠ '/')).drop 1 }
  else { Namespace := toDefaultNamespace, Name := T }

/-- The key and the value the specification gives to an entry. -/
def entryOf (fromDefaultNamespace toDefaultNamespace m : GoString) :
    GoString × NamespacedName :=
  (specKey fromDefaultNamespace (fromSide m), specValue toDefaultNamespace (toSide m))

/-- The table after the assignments `ret[e.1] = e.2` for `e` in `es`, in order. -/
def Table.setAll (ret : Table) (es : List (GoString × NamespacedName)) : Table :=
  es.foldl (fun r e => r.set e.1 e.2) ret

/-- The registration path `RegisterControllers` hands a unit to, for a unit
that implements one of the two interfaces. -/
def handOver (v : Object) : RegisterEvent :=
  if v.isFakeSyncer then .fakeSyncer v else .realSyncer v

/-- The units the constructors of a group return. -/
def unitsOf (ctx : ControllerContext) (v : List Constructor) : List Object :=
  v.filterMap (fun controllerNew =>
    match controllerNew (ToRegisterContext ctx) with
    | .ok ctrl => some ctrl
    | .error _ => none)

/-- The units a fallback group contributes: those of its constructors when one
of its alternative names is enabled, none otherwise. -/
def groupUnits (ctx : ControllerContext) (g : GoString × List Constructor) : List Object :=
  if (Split g.1 ',').any ctx.Controllers then unitsOf ctx g.2 else []

/-- What the specification lets happen for one constructor of a group with the
alternative names `names`: the names are consulted in declared order up to
the first enabled one, under which the constructor is invoked once. -/
def groupEvents (ctx : ControllerContext) (names : List GoString) : List CreateEvent :=
  match names.find? ctx.Controllers with
  | none => names.map .lookup
  | some controller =>
    (names.takeWhile (fun n => !ctx.Controllers n)).map .lookup ++
      [.lookup controller, .construct controller]

/-- The constructor invocations `Create` is to make, in order, each with the
name it is invoked under: for every group with an enabled name, each of its
constructors under the first enabled name. -/
def calls (ctx : ControllerContext) (registry : List (GoString × List Constructor)) :
    List (GoString × Constructor) :=
  registry.flatMap (fun g =>
    match (Split g.1 ',').find? ctx.Controllers with
    | none => []
    | some controller => g.2.map (fun controllerNew => (controller, controllerNew)))

/-- The names under which constructors were invoked, in order. -/
def constructs (events : List CreateEvent) : List GoString :=
  events.filterMap (fun e =>
    match e with
    | .construct controller => some controller
    | .lookup _ => none)

/-- The invocations `cs` made one after the other, stopping at the first
error: the outcome and the names under which a constructor was invoked. -/
def runCalls (ctx : ControllerContext) :
    List (GoString × Constructor) → List Object → Except Err (List Object) × List GoString
  | [], syncers => (.ok syncers, [])
  | (controller, controllerNew) :: cs, syncers =>
    match controllerNew (ToRegisterContext ctx) with
    | .error err =>
      (.error (Wrapf err ("register ".toList ++ controller ++ " controller".toList)),
        [controller])
    | .ok ctrl =>
      ((runCalls ctx cs (syncers ++ [ctrl])).1, controller :: (runCalls ctx cs (syncers ++ [ctrl])).2)

/-! ## Sample inputs -/

/-- A unit named `name` that implements `Syncer`. -/
def sampleUnit (name : GoString) : Object :=
  { Name := name, isFakeSyncer := false, isSyncer := true }

/-- Resource packages whose constructors all succeed. -/
def samplePackages : ResourcePackages :=
  { servicesNew := fun _ => .ok (sampleUnit "services".toList)
    configmapsNew := fun _ => .ok (sampleUnit "configmaps".toList)
    secretsNew := fun _ => .ok (sampleUnit "secrets".toList)
    endpointsNew := fun _ => .ok (sampleUnit "endpoints".toList)
    podsNew := fun _ => .ok (sampleUnit "pods".toList)
    eventsNew := fun _ => .ok (sampleUnit "events".toList)
    persistentvolumeclaimsNew := fun _ => .ok (sampleUnit "persistentvolumeclaims".toList)
    ingressesNew := fun _ => .ok (sampleUnit "ingresses".toList)
    ingressclassesNew := fun _ => .ok (sampleUnit "ingressclasses".toList)
    storageclassesNew := fun _ => .ok (sampleUnit "storageclasses".toList)
    storageclassesNewLegacy := fun _ => .ok (sampleUnit "legacy-storageclasses".toList)
    priorityclassesNew := fun _ => .ok (sampleUnit "priorityclasses".toList)
    nodesNew := fun _ => .ok (sampleUnit "nodes".toList)
    poddisruptionbudgetsNew := fun _ => .ok (sampleUnit "poddisruptionbudgets".toList)
    networkpoliciesNew := fun _ => .ok (sampleUnit "networkpolicies".toList)
    volumesnapshotclassesNew := fun _ => .ok (sampleUnit "volumesnapshotclasses".toList)
    volumesnapshotsNew := fun _ => .ok (sampleUnit "volumesnapshots".toList)
    volumesnapshotcontentsNew := fun _ => .ok (sampleUnit "volumesnapshotcontents".toList)
    serviceaccountsNew := fun _ => .ok (sampleUnit "serviceaccounts".toList)
    persistentvolumesNew := fun _ => .ok (sampleUnit "persistentvolumes".toList) }

/-- The sample packages, with a `nodes.New` that fails. -/
def failingNodesPackages : ResourcePackages :=
  { samplePackages with nodesNew := fun _ => .error "boom".toList }

/-- A controller context in which exactly the names of `enabled` are enabled,
with the given options. -/
def sampleContext (enabled : List GoString) (options : VirtualClusterOptions) :
    ControllerContext :=
  { Options := options
    Controllers := fun controller => decide (controller ∈ enabled)
    CurrentNamespace := options.TargetNamespace }

/-- Options without service mappings, for the target namespace `ns`. -/
def sampleOptions : VirtualClusterOptions :=
  { TargetNamespace := "ns".toList
    EnforcePodSecurityStandard := []
    MapHostServices := []
    MapVirtualServices := [] }

/-- Collaborators whose calls all succeed. -/
def sampleCollaborators : Collaborators :=
  { k8sdefaultendpointRegister := none
    podSecuritySetup := none
    coreDNSSetup := none
    currentNamespaceManagerNew := none
    convertRestConfig := none
    rawConfig := none
    initManifestsSetup := none
    globalLocalManagerNew := none
    hostServiceSyncerRegister := fun _ => none
    virtualServiceSyncerRegister := fun _ => none
    RegisterFakeSyncer := fun _ => none
    RegisterSyncer := fun _ => none }

/-- A unit that implements neither `FakeSyncer` nor `Syncer`. -/
def brokenUnit : Object :=
  { Name := "broken".toList, isFakeSyncer := false, isSyncer := false }

/-- Options with the target namespace `tn` and the single host service
mapping `default/svc1=ns2/svc2`. -/
def hostMappingOptions (tn : GoString) : VirtualClusterOptions :=
  { TargetNamespace := tn
    EnforcePodSecurityStandard := []
    MapHostServices := ["default/svc1=ns2/svc2".toList]
    MapVirtualServices := [] }

/-! ## Facts about `Split` -/

theorem Split_ne_nil (s : GoString) (c : Char) : Split s c ≠ [] := by
  induction s with
  | nil => simp [Split]
  | cons a s ih =>
    unfold Split
    split
    · simp
    · split <;> simp

theorem Split_length (s : GoString) (c : Char) : (Split s c).length = s.count c + 1 := by
  induction s with
  | nil => simp [Split]
  | cons a s ih =>
    unfold Split
    split
    · rename_i h; subst h; simp [ih]
    · rename_i h
      have hc : List.count c (a :: s) = List.count c s := by
        rw [List.count_cons]; simp [h]
      rw [hc, ← ih]
      split
      · rename_i h2; exact absurd h2 (Split_ne_nil s c)
      · rename_i h2; simp [h2]

theorem Split_of_not_mem (s : GoString) (c : Char) (h : c ∉ s) : Split s c = [s] := by
  induction s with
  | nil => simp [Split]
  | cons a s ih =>
    have ha : ¬ a = c := fun e => h (by simp [e])
    have hs : c ∉ s := fun e => h (by simp [e])
    rw [Split, if_neg ha, ih hs]

theorem Split_append (a b : GoString) (c : Char) (h : c ∉ a) :
    Split (a ++ c :: b) c = a :: Split b c := by
  induction a with
  | nil => simp [Split]
  | cons x a ih =>
    have hx : ¬ x = c := fun e => h (by simp [e])
    have ha : c ∉ a := fun e => h (by simp [e])
    show Split (x :: (a ++ c :: b)) c = _
    rw [Split, if_neg hx, ih ha]

theorem takeWhile_append_drop (s : GoString) (c : Char) (h : c ∈ s) :
    s = s.takeWhile (· ≠ c) ++ c :: (s.dropWhile (· ≠ c)).drop 1 := by
  induction s with
  | nil => simp at h
  | cons a s ih =>
    by_cases hac : a = c
    · subst hac; simp [List.takeWhile, List.dropWhile]
    · have hs : c ∈ s := by
        rcases List.mem_cons.1 h with h1 | h1
        · exact absurd h1.symm hac
        · exact h1
      have := ih hs
      simp only [List.takeWhile, List.dropWhile, ne_eq, hac, not_false_eq_true, decide_True,
        List.cons_append]
      exact congrArg (List.cons a) this

theorem not_mem_takeWhile (s : GoString) (c : Char) : c ∉ s.takeWhile (· ≠ c) := by
  intro h
  have := List.mem_takeWhile_imp h
  simp at this

/-- The shape of `Split`: the text before the first separator, then the split
of what follows it. -/
theorem Split_eq (s : GoString) (c : Char) :
    Split s c = s.takeWhile (· ≠ c) ::
      (if c ∈ s then Split ((s.dropWhile (· ≠ c)).drop 1) c else []) := by
  by_cases h : c ∈ s
  · rw [if_pos h]
    conv_lhs => rw [takeWhile_append_drop s c h]
    exact Split_append _ _ _ (not_mem_takeWhile s c)
  · rw [if_neg h, Split_of_not_mem s c h]
    congr 1
    symm
    rw [List.takeWhile_eq_self_iff]
    intro x hx
    simp only [ne_eq, decide_eq_true_eq]
    intro e; exact h (e ▸ hx)

theorem count_pos_of_mem (s : GoString) (c : Char) : c ∈ s ↔ s.count c ≠ 0 := by
  rw [Nat.ne_zero_iff_zero_lt, List.count_pos_iff]

theorem Split_two (s : GoString) (c : Char) (h : s.count c = 1) :
    Split s c = [s.takeWhile (· ≠ c), (s.dropWhile (· ≠ c)).drop 1] := by
  have hmem : c ∈ s := (count_pos_of_mem s c).2 (by omega)
  rw [Split_eq, if_pos hmem]
  congr 1
  apply Split_of_not_mem
  intro hin
  have h1 := congrArg (List.count c) (takeWhile_append_drop s c hmem)
  rw [List.count_append, List.count_cons_self] at h1
  have h2 := (count_pos_of_mem _ c).1 hin
  omega

theorem mem_iff_segments (s : GoString) : '/' ∈ s ↔ segments s ≠ 1 := by
  rw [count_pos_of_mem]; unfold segments; omega

/-! ## Facts about the loop body of `parseMapping` -/

/-- What the second half of the loop body computes, in terms of the number of
segments of the to side. -/
theorem parseMappingTo_eq (td k T : GoString) :
    parseMappingTo td k T =
      if segments T = 1 then
        if td = [] then .error errServiceMappingTo else .ok (k, specValue td T)
      else if segments T = 2 then
        if td ≠ [] then .error errServiceMapping else .ok (k, specValue td T)
      else .error errServiceMapping := by
  unfold parseMappingTo
  simp only [Split_length]
  show (if segments T = 1 then _ else if segments T = 2 then _ else _) = _
  by_cases h1 : segments T = 1
  · have hm : ¬ '/' ∈ T := fun hm => (mem_iff_segments T).1 hm h1
    simp only [h1, if_true, specValue, if_neg hm]
  · have hm : '/' ∈ T := (mem_iff_segments T).2 h1
    simp only [h1, if_false, specValue, if_pos hm]
    by_cases h2 : segments T = 2
    · have hc : T.count '/' = 1 := by unfold segments at h2; omega
      simp only [h2, if_true, Split_two T '/' hc]
      rfl
    · simp only [h2, if_false]

/-- What the loop body computes, in terms of the sides of the entry. -/
theorem parseMappingEntry_eq (fd td m : GoString) :
    parseMappingEntry fd td m =
      if m.count '=' ≠ 1 then .error errServiceMapping
      else if fromSide m = [] ∨ toSide m = [] then .error errServiceMapping
      else if segments (fromSide m) = 1 then
        if fd = [] then .error errServiceMapping
        else parseMappingTo td (specKey fd (fromSide m)) (toSide m)
      else if segments (fromSide m) ≠ 2 then .error errServiceMapping
      else parseMappingTo td (specKey fd (fromSide m)) (toSide m) := by
  unfold parseMappingEntry
  simp only [Split_length]
  by_cases hc : m.count '=' = 1
  · have hs := Split_two m '=' hc
    simp only [hs, hc, List.getD_cons_zero, List.getD_cons_succ, List.length_eq_zero]
    show (if ¬ (1 + 1 = 2) then _ else
      if fromSide m = [] ∨ toSide m = [] then _ else
        if segments (fromSide m) = 1 then _ else if ¬ segments (fromSide m) = 2 then _ else _) = _
    simp only [ne_eq, not_true_eq_false, if_false]
    by_cases he : fromSide m = [] ∨ toSide m = []
    · simp only [he, if_true]
    · simp only [he, if_false]
      by_cases h1 : segments (fromSide m) = 1
      · have hm : ¬ '/' ∈ fromSide m := fun hm => (mem_iff_segments _).1 hm h1
        simp only [h1, if_true, specKey, if_neg hm]
        rfl
      · have hm : '/' ∈ fromSide m := (mem_iff_segments _).2 h1
        simp only [h1, if_false, specKey, if_pos hm]
        rfl
  · have : ¬ (m.count '=' + 1 = 2) := by omega
    simp only [ne_eq, this, not_false_eq_true, if_true, hc]

theorem parseMappingEntry_valid (fd td m : GoString) (h : ValidEntry fd td m) :
    parseMappingEntry fd td m = .ok (specKey fd (fromSide m), specValue td (toSide m)) := by
  obtain ⟨⟨h1, h2, h3⟩, ⟨h4, h5⟩, h6, h7, h8⟩ := h
  rw [parseMappingEntry_eq, parseMappingTo_eq]
  simp only [h1, ne_eq, not_true_eq_false, if_false, h2, h3, or_self]
  by_cases hf : segments (fromSide m) = 1
  · simp only [hf, if_true, h5 hf, if_false]
    by_cases ht : segments (toSide m) = 1
    · simp only [ht, if_true, h7 ht, if_false]
    · have ht2 : segments (toSide m) = 2 := h6.resolve_left ht
      simp only [ht2, if_true, h8 ht2, not_true_eq_false, if_false]
      simp
  · have hf2 : segments (fromSide m) = 2 := h4.resolve_left hf
    simp only [hf2, if_true, not_true_eq_false, if_false]
    by_cases ht : segments (toSide m) = 1
    · simp only [ht, if_true, h7 ht, if_false]
      simp
    · have ht2 : segments (toSide m) = 2 := h6.resolve_left ht
      simp only [ht2, if_true, h8 ht2, not_true_eq_false, if_false]
      simp

theorem parseMappingEntry_invalid (fd td m : GoString) (h : ¬ ValidEntry fd td m) :
    parseMappingEntry fd td m = .error errServiceMapping ∨
      parseMappingEntry fd td m = .error errServiceMappingTo := by
  rw [parseMappingEntry_eq, parseMappingTo_eq]
  unfold ValidEntry at h
  by_cases h1 : m.count '=' = 1
  case neg => simp [h1]
  by_cases h2 : fromSide m = []
  case pos => simp [h1, h2]
  by_cases h3 : toSide m = []
  case pos => simp [h1, h3]
  by_cases h4 : fd = [] <;> by_cases h5 : td = [] <;>
    by_cases h6 : segments (fromSide m) = 1 <;> by_cases h7 : segments (fromSide m) = 2 <;>
    by_cases h8 : segments (toSide m) = 1 <;> by_cases h9 : segments (toSide m) = 2 <;>
    simp_all

/-- The loop body returns the message about the to side exactly when the
entry passes rules (i) and (ii) and its to side is a bare name while
`toDefaultNamespace` is empty. -/
theorem parseMappingEntry_error_to (fd td m : GoString) :
    parseMappingEntry fd td m = .error errServiceMappingTo ↔
      (m.count '=' = 1 ∧ fromSide m ≠ [] ∧ toSide m ≠ []) ∧
      ((segments (fromSide m) = 1 ∨ segments (fromSide m) = 2) ∧
        (segments (fromSide m) = 1 → fd ≠ [])) ∧
      segments (toSide m) = 1 ∧ td = [] := by
  have hne : errServiceMapping ≠ errServiceMappingTo := by decide
  have hne2 : ¬ (Except.error errServiceMapping : Except Err (GoString × NamespacedName)) =
      Except.error errServiceMappingTo := fun e => hne (by injection e)
  rw [parseMappingEntry_eq, parseMappingTo_eq]
  by_cases h1 : m.count '=' = 1
  case neg => simp [h1, hne2]
  by_cases h2 : fromSide m = []
  case pos => simp [h1, h2, hne2]
  by_cases h3 : toSide m = []
  case pos => simp [h1, h3, hne2]
  by_cases h4 : fd = [] <;> by_cases h5 : td = [] <;>
    by_cases h6 : segments (fromSide m) = 1 <;> by_cases h7 : segments (fromSide m) = 2 <;>
    by_cases h8 : segments (toSide m) = 1 <;> by_cases h9 : segments (toSide m) = 2 <;>
    simp_all

/-! ## Facts about the table -/

theorem Table.get_set (ret : Table) (k k1 : GoString) (v : NamespacedName) :
    (ret.set k v).get k1 = if k = k1 then some v else ret.get k1 := by
  induction ret with
  | nil => simp [Table.set, Table.get]
  | cons e ret ih =>
    obtain ⟨k0, v0⟩ := e
    by_cases h : k0 = k
    · subst h
      by_cases h1 : k0 = k1 <;> simp [Table.set, Table.get, h1]
    · by_cases h1 : k0 = k1
      · subst h1
        have : ¬ k = k0 := fun e => h e.symm
        simp [Table.set, Table.get, h, this]
      · simp [Table.set, Table.get, h, h1, ih]

theorem Table.keys_set (ret : Table) (k : GoString) (v : NamespacedName) :
    (ret.set k v).map Prod.fst =
      if k ∈ ret.map Prod.fst then ret.map Prod.fst else ret.map Prod.fst ++ [k] := by
  induction ret with
  | nil => simp [Table.set]
  | cons e ret ih =>
    obtain ⟨k0, v0⟩ := e
    by_cases h : k0 = k
    · subst h; simp [Table.set]
    · have h1 : ¬ k = k0 := fun e => h e.symm
      simp only [Table.set, if_neg h, List.map_cons, ih, List.mem_cons, h1, false_or]
      split <;> simp

theorem Table.set_of_not_mem (ret : Table) (k : GoString) (v : NamespacedName)
    (h : k ∉ ret.map Prod.fst) : ret.set k v = ret ++ [(k, v)] := by
  induction ret with
  | nil => simp [Table.set]
  | cons e ret ih =>
    obtain ⟨k0, v0⟩ := e
    have h0 : ¬ k0 = k := fun e => h (by simp [e])
    have h1 : k ∉ ret.map Prod.fst := fun e => h (by simp at e ⊢; exact Or.inr e)
    simp [Table.set, h0, ih h1]

theorem Table.mem_set (ret : Table) (k : GoString) (v : NamespacedName)
    (p : GoString × NamespacedName) (h : p ∈ ret.set k v) : p ∈ ret ∨ p = (k, v) := by
  induction ret with
  | nil => simpa [Table.set] using h
  | cons e ret ih =>
    obtain ⟨k0, v0⟩ := e
    by_cases h0 : k0 = k
    · simp only [Table.set, if_pos h0, List.mem_cons] at h
      rcases h with h | h
      · exact Or.inr h
      · exact Or.inl (List.mem_cons_of_mem _ h)
    · simp only [Table.set, if_neg h0, List.mem_cons] at h
      rcases h with h | h
      · exact Or.inl (by simp [h])
      · rcases ih h with h | h
        · exact Or.inl (List.mem_cons_of_mem _ h)
        · exact Or.inr h

theorem Table.mem_of_get (ret : Table) (k : GoString) (v : NamespacedName)
    (h : ret.get k = some v) : (k, v) ∈ ret := by
  induction ret with
  | nil => simp [Table.get] at h
  | cons e ret ih =>
    obtain ⟨k0, v0⟩ := e
    by_cases h0 : k0 = k
    · simp only [Table.get, if_pos h0, Option.some.injEq] at h
      simp [h0, h]
    · simp only [Table.get, if_neg h0] at h
      exact List.mem_cons_of_mem _ (ih h)

theorem Table.setAll_cons (ret : Table) (e : GoString × NamespacedName)
    (es : List (GoString × NamespacedName)) :
    ret.setAll (e :: es) = (ret.set e.1 e.2).setAll es := rfl

theorem Table.setAll_append (ret : Table) (es fs : List (GoString × NamespacedName)) :
    ret.setAll (es ++ fs) = (ret.setAll es).setAll fs := by
  simp [Table.setAll, List.foldl_append]

theorem Table.get_setAll_of_not_mem (es : List (GoString × NamespacedName)) (ret : Table)
    (k : GoString) (h : k ∉ es.map Prod.fst) : (ret.setAll es).get k = ret.get k := by
  induction es generalizing ret with
  | nil => rfl
  | cons e es ih =>
    have h0 : ¬ e.1 = k := fun e0 => h (by simp [e0])
    have h1 : k ∉ es.map Prod.fst := fun e0 => h (by simp at e0 ⊢; exact Or.inr e0)
    rw [Table.setAll_cons, ih _ h1, Table.get_set, if_neg h0]

theorem Table.mem_setAll (es : List (GoString × NamespacedName)) (ret : Table)
    (p : GoString × NamespacedName) (h : p ∈ ret.setAll es) : p ∈ ret ∨ p ∈ es := by
  induction es generalizing ret with
  | nil => exact Or.inl h
  | cons e es ih =>
    rw [Table.setAll_cons] at h
    rcases ih _ h with h | h
    · rcases Table.mem_set _ _ _ _ h with h | h
      · exact Or.inl h
      · exact Or.inr (by simp [h])
    · exact Or.inr (List.mem_cons_of_mem _ h)

theorem Table.setAll_of_nodup (es : List (GoString × NamespacedName)) (ret : Table)
    (h : ((ret ++ es).map Prod.fst).Nodup) : ret.setAll es = ret ++ es := by
  induction es generalizing ret with
  | nil => simp [Table.setAll]
  | cons e es ih =>
    have hnot : e.1 ∉ ret.map Prod.fst := by
      intro hin
      rw [List.map_append, List.nodup_append] at h
      exact h.2.2 hin (by simp)
    rw [Table.setAll_cons, Table.set_of_not_mem _ _ _ hnot]
    have : ret ++ [(e.1, e.2)] ++ es = ret ++ e :: es := by simp
    rw [ih]
    · exact this
    · rw [this]; exact h

theorem Table.keys_setAll (es : List (GoString × NamespacedName)) (ret : Table)
    (h : (ret.map Prod.fst).Nodup) :
    ((ret.setAll es).map Prod.fst).Nodup ∧
      ∀ k, k ∈ (ret.setAll es).map Prod.fst ↔ k ∈ ret.map Prod.fst ∨ k ∈ es.map Prod.fst := by
  induction es generalizing ret with
  | nil => simp [Table.setAll, h]
  | cons e es ih =>
    have hset : ((ret.set e.1 e.2).map Prod.fst).Nodup := by
      rw [Table.keys_set]
      split
      · exact h
      · rename_i hn
        rw [List.nodup_append]
        refine ⟨h, by simp, ?_⟩
        intro a ha hb
        simp only [List.mem_singleton] at hb
        exact hn (hb ▸ ha)
    obtain ⟨h1, h2⟩ := ih _ hset
    rw [Table.setAll_cons]
    refine ⟨h1, fun k => ?_⟩
    rw [h2, Table.keys_set]
    split
    · rename_i hin
      simp only [List.map_cons, List.mem_cons]
      constructor
      · rintro (h3 | h3)
        · exact Or.inl h3
        · exact Or.inr (Or.inr h3)
      · rintro (h3 | h3 | h3)
        · exact Or.inl h3
        · exact Or.inl (h3 ▸ hin)
        · exact Or.inr h3
    · simp only [List.mem_append, List.mem_singleton, List.map_cons, List.mem_cons]
      tauto

theorem Table.len_setAll (es : List (GoString × NamespacedName)) :
    (Table.setAll [] es).len = (es.map Prod.fst).dedup.length := by
  obtain ⟨h1, h2⟩ := Table.keys_setAll es [] (by simp)
  have hlen : (Table.setAll [] es).len = ((Table.setAll [] es).map Prod.fst).length := by
    simp [Table.len]
  rw [hlen, ← List.toFinset_card_of_nodup h1, ← List.card_toFinset]
  congr 1
  ext k
  simp only [List.mem_toFinset]
  rw [h2]
  simp

/-! ## Facts about the loop of `parseMapping` -/

theorem parseMappingLoop_valid (fd td : GoString) (ms : List GoString) (ret : Table)
    (h : ∀ m ∈ ms, ValidEntry fd td m) :
    parseMappingLoop fd td ms ret = (some (ret.setAll (ms.map (entryOf fd td))), none) := by
  induction ms generalizing ret with
  | nil => rfl
  | cons m ms ih =>
    have hm := parseMappingEntry_valid fd td m (h m (by simp))
    rw [parseMappingLoop, hm]
    show parseMappingLoop fd td ms _ = _
    rw [ih _ (fun x hx => h x (List.mem_cons_of_mem _ hx))]
    rfl

theorem parseMappingLoop_invalid (fd td : GoString) (pre post : List GoString) (m : GoString)
    (ret : Table) (err : Err) (hpre : ∀ x ∈ pre, ValidEntry fd td x)
    (hm : parseMappingEntry fd td m = .error err) :
    parseMappingLoop fd td (pre ++ m :: post) ret = (none, some err) := by
  induction pre generalizing ret with
  | nil =>
    show parseMappingLoop fd td (m :: post) ret = _
    rw [parseMappingLoop, hm]
  | cons x pre ih =>
    have hx := parseMappingEntry_valid fd td x (hpre x (by simp))
    show parseMappingLoop fd td (x :: (pre ++ m :: post)) ret = _
    rw [parseMappingLoop, hx]
    exact ih _ (fun y hy => hpre y (List.mem_cons_of_mem _ hy))

/-- A list either satisfies a predicate everywhere or has a first element
that does not. -/
theorem first_failure {α : Type} (p : α → Prop) (l : List α) :
    (∀ x ∈ l, p x) ∨
      ∃ pre x post, l = pre ++ x :: post ∧ (∀ y ∈ pre, p y) ∧ ¬ p x := by
  induction l with
  | nil => exact Or.inl (by simp)
  | cons a l ih =>
    by_cases ha : p a
    · rcases ih with h | ⟨pre, x, post, h1, h2, h3⟩
      · left
        intro x hx
        rcases List.mem_cons.1 hx with h0 | h0
        · exact h0 ▸ ha
        · exact h x h0
      · right
        refine ⟨a :: pre, x, post, by simp [h1], ?_, h3⟩
        intro y hy
        rcases List.mem_cons.1 hy with h0 | h0
        · exact h0 ▸ ha
        · exact h2 y h0
    · exact Or.inr ⟨[], a, l, rfl, by simp, ha⟩

/-- The outcome of `parseMapping`: the table of all entries when every entry
is valid, and otherwise no table and one of the two messages, decided by the
first invalid entry. -/
theorem parseMapping_cases (ms : List GoString) (fd td : GoString) :
    ((∀ m ∈ ms, ValidEntry fd td m) ∧
      parseMapping ms fd td = (some (Table.setAll [] (ms.map (entryOf fd td))), none)) ∨
    (∃ pre m post err, ms = pre ++ m :: post ∧ (∀ x ∈ pre, ValidEntry fd td x) ∧
      ¬ ValidEntry fd td m ∧ parseMappingEntry fd td m = .error err ∧
      (err = errServiceMapping ∨ err = errServiceMappingTo) ∧
      parseMapping ms fd td = (none, some err)) := by
  rcases first_failure (ValidEntry fd td) ms with h | ⟨pre, m, post, h1, h2, h3⟩
  · exact Or.inl ⟨h, parseMappingLoop_valid fd td ms [] h⟩
  · right
    rcases parseMappingEntry_invalid fd td m h3 with he | he
    · exact ⟨pre, m, post, _, h1, h2, h3, he, Or.inl rfl,
        h1 ▸ parseMappingLoop_invalid fd td pre post m [] _ h2 he⟩
    · exact ⟨pre, m, post, _, h1, h2, h3, he, Or.inr rfl,
        h1 ▸ parseMappingLoop_invalid fd td pre post m [] _ h2 he⟩

theorem sides_append (F T : GoString) (h : '=' ∉ F) :
    fromSide (F ++ '=' :: T) = F ∧ toSide (F ++ '=' :: T) = T := by
  induction F with
  | nil => simp [fromSide, toSide, List.takeWhile, List.dropWhile]
  | cons a F ih =>
    have ha : a ≠ '=' := fun e => h (by simp [e])
    have hF : '=' ∉ F := fun e => h (by simp [e])
    obtain ⟨h1, h2⟩ := ih hF
    simp only [fromSide, toSide] at h1 h2 ⊢
    simp only [List.cons_append, List.takeWhile, List.dropWhile, ne_eq, ha, not_false_eq_true,
      decide_True]
    exact ⟨congrArg (List.cons a) h1, h2⟩

/-- An accepted entry written `F=T` has `F` and `T` as its two sides. -/
theorem sides_of_valid (fd td F T : GoString) (h : ValidEntry fd td (F ++ '=' :: T)) :
    fromSide (F ++ '=' :: T) = F ∧ toSide (F ++ '=' :: T) = T := by
  apply sides_append
  intro hin
  have h1 := h.1.1
  rw [List.count_append, List.count_cons_self] at h1
  have h2 := (count_pos_of_mem F '=').1 hin
  omega

/-- A valid entry is its from side, `=`, and its to side. -/
theorem valid_eq_sides (fd td m : GoString) (h : ValidEntry fd td m) :
    m = fromSide m ++ '=' :: toSide m := by
  have hmem : '=' ∈ m := (count_pos_of_mem m '=').2 (by rw [h.1.1]; decide)
  exact takeWhile_append_drop m '=' hmem

theorem parseMapping_accepts (ms : List GoString) (fd td : GoString)
    (h : (parseMapping ms fd td).2 = none) :
    (∀ m ∈ ms, ValidEntry fd td m) ∧
      parseMapping ms fd td = (some (Table.setAll [] (ms.map (entryOf fd td))), none) := by
  rcases parseMapping_cases ms fd td with h1 | ⟨pre, m, post, err, _, _, _, _, _, h6⟩
  · exact h1
  · rw [h6] at h; simp at h

theorem parseMapping_table (ms : List GoString) (fd td : GoString) (tbl : Table)
    (h : parseMapping ms fd td = (some tbl, none)) :
    (∀ m ∈ ms, ValidEntry fd td m) ∧ tbl = Table.setAll [] (ms.map (entryOf fd td)) := by
  obtain ⟨h1, h2⟩ := parseMapping_accepts ms fd td (by rw [h])
  refine ⟨h1, ?_⟩
  rw [h] at h2
  simpa using h2

/-! ## The claims about `parseMapping` -/

/-- C1: `parseMapping` returns an error if and only if some entry violates
one of the validation rules (i), (ii), (iii), and whenever it returns an error
it returns the nil table. -/
theorem parseMapping_error_iff (ms : List GoString) (fd td : GoString) :
    ((parseMapping ms fd td).2 ≠ none ↔ ∃ m ∈ ms, ¬ ValidEntry fd td m) ∧
    ((parseMapping ms fd td).2 ≠ none → (parseMapping ms fd td).1 = none) := by
  rcases parseMapping_cases ms fd td with ⟨h1, h2⟩ | ⟨pre, m, post, err, h1, _, h3, _, _, h6⟩
  · rw [h2]
    refine ⟨⟨fun h => absurd rfl h, ?_⟩, fun h => absurd rfl h⟩
    rintro ⟨m, hm, hv⟩
    exact absurd (h1 m hm) hv
  · rw [h6]
    refine ⟨⟨fun _ => ⟨m, by simp [h1], h3⟩, fun _ => by simp⟩, fun _ => rfl⟩

/-- C1, at the three inputs the specification lists: each is rejected, with
the nil table. -/
theorem parseMapping_error_iff_witness :
    ((parseMapping ["a=b".toList] "ns1".toList []).2 ≠ none ∧
      (parseMapping ["a=b".toList] "ns1".toList []).1 = none) ∧
    ((parseMapping ["a=ns2/b".toList] "ns1".toList "ns3".toList).2 ≠ none ∧
      (parseMapping ["a=ns2/b".toList] "ns1".toList "ns3".toList).1 = none) ∧
    ((parseMapping ["bad".toList] [] []).2 ≠ none ∧
      (parseMapping ["bad".toList] [] []).1 = none) := by
  have e1 := (parseMapping_error_iff ["a=b".toList] "ns1".toList []).1.2
    ⟨"a=b".toList, by simp, by decide⟩
  have e2 := (parseMapping_error_iff ["a=ns2/b".toList] "ns1".toList "ns3".toList).1.2
    ⟨"a=ns2/b".toList, by simp, by decide⟩
  have e3 := (parseMapping_error_iff ["bad".toList] [] []).1.2
    ⟨"bad".toList, by simp, by decide⟩
  exact ⟨⟨e1, (parseMapping_error_iff _ _ _).2 e1⟩, ⟨e2, (parseMapping_error_iff _ _ _).2 e2⟩,
    ⟨e3, (parseMapping_error_iff _ _ _).2 e3⟩⟩

/-- C2: when `parseMapping` accepts a list whose resolved from keys are
pairwise distinct, the table has one entry per input entry `F=T`: the key is
`F` when `F` is `namespace/name` and `fromDefaultNamespace/F` when `F` is a
bare name, the value is the two segments of `T` when `T` is `namespace/name`
and `(toDefaultNamespace, T)` when `T` is a bare name; and the table has no
other entry. -/
theorem parseMapping_distinct_keys (ms : List GoString) (fd td : GoString) (tbl : Table)
    (hacc : parseMapping ms fd td = (some tbl, none))
    (hdist : (ms.map (fun m => specKey fd (fromSide m))).Nodup) :
    tbl.len = ms.length ∧
    (∀ F T, (F ++ '=' :: T) ∈ ms → tbl.get (specKey fd F) = some (specValue td T)) ∧
    (∀ k v, tbl.get k = some v →
      ∃ F T, (F ++ '=' :: T) ∈ ms ∧ k = specKey fd F ∧ v = specValue td T) := by
  obtain ⟨hv, ht⟩ := parseMapping_table ms fd td tbl hacc
  have hkeys : (ms.map (entryOf fd td)).map Prod.fst = ms.map (fun m => specKey fd (fromSide m)) := by
    rw [List.map_map]; rfl
  have hlist : tbl = ms.map (entryOf fd td) := by
    rw [ht, Table.setAll_of_nodup _ _ (by simpa [hkeys] using hdist)]
    simp
  refine ⟨by simp [hlist, Table.len], ?_, ?_⟩
  · intro F T hin
    obtain ⟨pre, post, hsplit⟩ := List.append_of_mem hin
    obtain ⟨hF, hT⟩ := sides_of_valid fd td F T (hv _ hin)
    have hnot : specKey fd F ∉ (post.map (entryOf fd td)).map Prod.fst := by
      intro hmem
      rw [hsplit, List.map_append, List.map_cons, List.nodup_append] at hdist
      have h1 := (List.nodup_cons.1 hdist.2.1).1
      rw [hF] at h1
      apply h1
      rw [List.map_map] at hmem
      exact hmem
    rw [ht, hsplit, List.map_append, List.map_cons, Table.setAll_append, Table.setAll_cons,
      Table.get_setAll_of_not_mem _ _ _ (by simpa [entryOf, hF] using hnot), Table.get_set]
    simp [entryOf, hF, hT]
  · intro k v hget
    have hmem := Table.mem_of_get _ _ _ hget
    rw [hlist, List.mem_map] at hmem
    obtain ⟨m, hm, he⟩ := hmem
    refine ⟨fromSide m, toSide m, ?_, ?_, ?_⟩
    · rw [← valid_eq_sides fd td m (hv m hm)]; exact hm
    · simp only [entryOf, Prod.mk.injEq] at he; exact he.1.symm
    · simp only [entryOf, Prod.mk.injEq] at he; exact he.2.symm

/-- C2, at the inputs the specification lists; the third for every target
namespace, with the mapping parsed as `registerServiceSyncControllers` parses
`MapHostServices` and handed to the host service syncer. -/
theorem parseMapping_distinct_keys_witness :
    (parseMapping ["ns1/a=b".toList] [] "ns2".toList
        = (some [("ns1/a".toList, { Namespace := "ns2".toList, Name := "b".toList })], none) ∧
      Table.len [("ns1/a".toList, { Namespace := "ns2".toList, Name := "b".toList })] = 1) ∧
    (parseMapping ["a=ns2/b".toList] "ns1".toList []
        = (some [("ns1/a".toList, { Namespace := "ns2".toList, Name := "b".toList })], none) ∧
      Table.len [("ns1/a".toList, { Namespace := "ns2".toList, Name := "b".toList })] = 1) ∧
    (∀ tn : GoString,
      parseMapping ["default/svc1=ns2/svc2".toList] tn []
        = (some [("default/svc1".toList,
            { Namespace := "ns2".toList, Name := "svc2".toList })], none) ∧
      Table.len [("default/svc1".toList,
            { Namespace := "ns2".toList, Name := "svc2".toList })] = 1 ∧
      (registerServiceSyncControllers sampleCollaborators
          (sampleContext [] (hostMappingOptions tn))).2
        = [.hostServiceSyncer [("default/svc1".toList,
            { Namespace := "ns2".toList, Name := "svc2".toList })]]) := by
  have a1 : parseMapping ["ns1/a=b".toList] [] "ns2".toList
      = (some [("ns1/a".toList, { Namespace := "ns2".toList, Name := "b".toList })], none) := by
    decide
  have a2 : parseMapping ["a=ns2/b".toList] "ns1".toList []
      = (some [("ns1/a".toList, { Namespace := "ns2".toList, Name := "b".toList })], none) := by
    decide
  have a3 : ∀ tn : GoString, parseMapping ["default/svc1=ns2/svc2".toList] tn []
      = (some [("default/svc1".toList,
          { Namespace := "ns2".toList, Name := "svc2".toList })], none) := by
    intro tn; rfl
  refine ⟨⟨a1, (parseMapping_distinct_keys _ _ _ _ a1 (by simp)).1⟩,
    ⟨a2, (parseMapping_distinct_keys _ _ _ _ a2 (by simp)).1⟩, fun tn =>
    ⟨a3 tn, (parseMapping_distinct_keys _ _ _ _ (a3 tn) (by simp)).1, rfl⟩⟩

/-- C3, as stated, fails: with both default namespaces set, the entry `a=b`,
whose two sides are bare names, is accepted. -/
theorem parseMapping_one_side_explicit_counterexample :
    parseMapping ["a=b".toList] "ns1".toList "ns2".toList
        = (some [("ns1/a".toList, { Namespace := "ns2".toList, Name := "b".toList })], none) ∧
      '/' ∉ fromSide "a=b".toList ∧ '/' ∉ toSide "a=b".toList := by
  decide

/-- C3, amended: when at least one of the two default namespaces is empty (as
in both calls made by `registerServiceSyncControllers`) and `parseMapping`
succeeds, every entry `F=T` has a side written as `namespace/name`. -/
theorem parseMapping_one_side_explicit (ms : List GoString) (fd td : GoString)
    (hdef : fd = [] ∨ td = []) (hacc : (parseMapping ms fd td).2 = none) :
    ∀ F T, (F ++ '=' :: T) ∈ ms → segments F = 2 ∨ segments T = 2 := by
  intro F T hin
  have hv := (parseMapping_accepts ms fd td hacc).1 _ hin
  obtain ⟨hF, hT⟩ := sides_of_valid fd td F T hv
  obtain ⟨_, ⟨h4, h5⟩, h6, h7, _⟩ := hv
  rw [hF] at h4 h5
  rw [hT] at h6 h7
  rcases h4 with h4 | h4
  · rcases h6 with h6 | h6
    · rcases hdef with hd | hd
      · exact absurd hd (h5 h4)
      · exact absurd hd (h7 h6)
    · exact Or.inr h6
  · exact Or.inl h4

/-- C3, amended, at a list parsed with an empty `toDefaultNamespace`: its
entry `a=ns2/b` has the to side `ns2/b` written as `namespace/name`. -/
theorem parseMapping_one_side_explicit_witness :
    (parseMapping ["a=ns2/b".toList, "ns1/c=ns3/d".toList] "ns1".toList []).2 = none ∧
      (segments "a".toList = 2 ∨ segments "ns2/b".toList = 2) :=
  ⟨by decide,
    parseMapping_one_side_explicit ["a=ns2/b".toList, "ns1/c=ns3/d".toList] "ns1".toList []
      (Or.inr rfl) (by decide) "a".toList "ns2/b".toList (by decide)⟩

/-- C4, as stated, fails: the entry `bad` is rejected with a message that
does not contain the text `bad`. -/
theorem parseMapping_error_message_counterexample :
    parseMapping ["bad".toList] [] [] = (none, some errServiceMapping) ∧
      ¬ ("bad".toList <:+: errServiceMapping) := by
  decide

/-- C4, amended: whenever `parseMapping` rejects a list, the error message is
one of two fixed texts, whatever the text of the offending entry; which of the
two depends only on the rule the first invalid entry breaks: the text ending
in `namespace2/service2` is returned exactly when that entry passes rules (i)
and (ii) and has a bare name as its to side while `toDefaultNamespace` is
empty. -/
theorem parseMapping_error_message (ms : List GoString) (fd td : GoString) (err : Err)
    (h : (parseMapping ms fd td).2 = some err) :
    (err = errServiceMapping ∨ err = errServiceMappingTo) ∧
    ∃ pre m post, ms = pre ++ m :: post ∧ (∀ x ∈ pre, ValidEntry fd td x) ∧
      ¬ ValidEntry fd td m ∧
      (err = errServiceMappingTo ↔
        (m.count '=' = 1 ∧ fromSide m ≠ [] ∧ toSide m ≠ []) ∧
        ((segments (fromSide m) = 1 ∨ segments (fromSide m) = 2) ∧
          (segments (fromSide m) = 1 → fd ≠ [])) ∧
        segments (toSide m) = 1 ∧ td = []) := by
  rcases parseMapping_cases ms fd td with ⟨_, h2⟩ | ⟨pre, m, post, e, h1, h2, h3, h4, h5, h6⟩
  · rw [h2] at h; simp at h
  · rw [h6] at h
    simp only [Option.some.injEq] at h
    subst h
    refine ⟨h5, pre, m, post, h1, h2, h3, ?_⟩
    rw [← parseMappingEntry_error_to fd td m, h4]
    constructor
    · intro he; rw [he]
    · intro he; injection he

/-- C4, amended, at the rejected list `a=b`: the message is the second of the
two fixed texts. -/
theorem parseMapping_error_message_witness :
    (parseMapping ["a=b".toList] "ns1".toList []).2 = some errServiceMappingTo ∧
      (errServiceMappingTo = errServiceMapping ∨ errServiceMappingTo = errServiceMappingTo) :=
  ⟨by decide,
    (parseMapping_error_message ["a=b".toList] "ns1".toList [] errServiceMappingTo
      (by decide)).1⟩

/-- C7: when `parseMapping` accepts a list, the table holds, for the key an
entry `F=T` resolves to, the identity of `T` whenever no later entry resolves
to the same key (so the last of several entries with one key wins), and the
table has as many entries as there are distinct resolved keys. -/
theorem parseMapping_last_wins (ms : List GoString) (fd td : GoString) (tbl : Table)
    (hacc : parseMapping ms fd td = (some tbl, none)) :
    (∀ pre F T post, ms = pre ++ (F ++ '=' :: T) :: post →
      (∀ m ∈ post, specKey fd (fromSide m) ≠ specKey fd F) →
      tbl.get (specKey fd F) = some (specValue td T)) ∧
    tbl.len = (ms.map (fun m => specKey fd (fromSide m))).dedup.length := by
  obtain ⟨hv, ht⟩ := parseMapping_table ms fd td tbl hacc
  constructor
  · intro pre F T post hsplit hlast
    obtain ⟨hF, hT⟩ := sides_of_valid fd td F T (hv _ (by simp [hsplit]))
    have hnot : specKey fd F ∉ (post.map (entryOf fd td)).map Prod.fst := by
      intro hmem
      rw [List.map_map, List.mem_map] at hmem
      obtain ⟨m, hm, he⟩ := hmem
      exact hlast m hm he
    rw [ht, hsplit, List.map_append, List.map_cons, Table.setAll_append, Table.setAll_cons,
      Table.get_setAll_of_not_mem _ _ _ (by simpa [entryOf, hF] using hnot), Table.get_set]
    simp [entryOf, hF, hT]
  · rw [ht, Table.len_setAll, List.map_map]
    rfl

/-- C7, at a list in which the bare name `a` and the qualified `ns/a` resolve
to the same key: the later entry wins and the table has one entry. -/
theorem parseMapping_last_wins_witness :
    parseMapping ["a=x/b".toList, "ns/a=y/c".toList] "ns".toList []
        = (some [("ns/a".toList, { Namespace := "y".toList, Name := "c".toList })], none) ∧
      Table.get [("ns/a".toList, { Namespace := "y".toList, Name := "c".toList })]
          (specKey "ns".toList "ns/a".toList) = some (specValue [] "y/c".toList) ∧
      Table.len [("ns/a".toList, { Namespace := "y".toList, Name := "c".toList })] = 1 := by
  have h := parseMapping_last_wins ["a=x/b".toList, "ns/a=y/c".toList] "ns".toList []
    [("ns/a".toList, { Namespace := "y".toList, Name := "c".toList })] (by decide)
  exact ⟨by decide, h.1 ["a=x/b".toList] "ns/a".toList "y/c".toList [] (by decide) (by simp),
    by decide⟩

theorem two_segments (s : GoString) (h : segments s = 2) :
    s = s.takeWhile (· ≠ '/') ++ '/' :: (s.dropWhile (· ≠ '/')).drop 1 ∧
      '/' ∉ s.takeWhile (· ≠ '/') ∧ '/' ∉ (s.dropWhile (· ≠ '/')).drop 1 := by
  have hc : s.count '/' = 1 := by unfold segments at h; omega
  have hmem : '/' ∈ s := (count_pos_of_mem s '/').2 (by omega)
  have hs := takeWhile_append_drop s '/' hmem
  refine ⟨hs, not_mem_takeWhile s '/', ?_⟩
  intro hin
  have h1 := congrArg (List.count '/') hs
  rw [List.count_append, List.count_cons_self] at h1
  have h2 := (count_pos_of_mem _ '/').1 hin
  omega

/-- C8, as stated, fails: the accepted entry `/a=ns2/` gives a key with an
empty namespace and a value with an empty name. -/
theorem parseMapping_qualified_counterexample :
    parseMapping ["/a=ns2/".toList] [] []
        = (some [("/a".toList, { Namespace := "ns2".toList, Name := [] })], none) ∧
      ("/a".toList).takeWhile (· ≠ '/') = [] := by
  decide

/-- C8, amended: in every table `parseMapping` returns, each key is
`ns/name` where `name` has no `/` and `ns` is either a segment without `/`
or the non-empty `fromDefaultNamespace` put before a non-empty bare name;
each value has a `Name` without `/` and a `Namespace` that is either a
segment without `/` or the non-empty `toDefaultNamespace` given to a
non-empty bare name.  So a key has exactly one `/` when
`fromDefaultNamespace` has none and a `Namespace` has no `/` when
`toDefaultNamespace` has none. -/
theorem parseMapping_qualified (ms : List GoString) (fd td : GoString) (tbl : Table)
    (hacc : parseMapping ms fd td = (some tbl, none)) :
    ∀ k v, tbl.get k = some v →
      (∃ ns name, k = ns ++ '/' :: name ∧ '/' ∉ name ∧
        ('/' ∉ ns ∨ (ns = fd ∧ ns ≠ [] ∧ name ≠ []))) ∧
      '/' ∉ v.Name ∧
      ('/' ∉ v.Namespace ∨ (v.Namespace = td ∧ td ≠ [] ∧ v.Name ≠ [])) ∧
      ('/' ∉ fd → k.count '/' = 1) ∧ ('/' ∉ td → '/' ∉ v.Namespace) := by
  intro k v hget
  obtain ⟨hv, ht⟩ := parseMapping_table ms fd td tbl hacc
  have hmem := Table.mem_of_get _ _ _ hget
  rw [ht] at hmem
  rcases Table.mem_setAll _ _ _ hmem with hmem | hmem
  · simp at hmem
  rw [List.mem_map] at hmem
  obtain ⟨m, hm, he⟩ := hmem
  obtain ⟨⟨_, h2, h3⟩, ⟨h4, h5⟩, h6, h7, _⟩ := hv m hm
  simp only [entryOf, Prod.mk.injEq] at he
  obtain ⟨hk, hval⟩ := he
  have key : ∃ ns name, k = ns ++ '/' :: name ∧ '/' ∉ name ∧
      ('/' ∉ ns ∨ (ns = fd ∧ ns ≠ [] ∧ name ≠ [])) := by
    by_cases hs : '/' ∈ fromSide m
    · have hseg : segments (fromSide m) = 2 := h4.resolve_left ((mem_iff_segments _).1 hs)
      obtain ⟨e1, e2, e3⟩ := two_segments _ hseg
      refine ⟨_, _, ?_, e3, Or.inl e2⟩
      rw [← hk, specKey, if_pos hs]
      exact e1
    · have hseg : segments (fromSide m) = 1 := by
        by_contra hne; exact hs ((mem_iff_segments _).2 hne)
      refine ⟨fd, fromSide m, ?_, hs, Or.inr ⟨rfl, h5 hseg, h2⟩⟩
      rw [← hk, specKey, if_neg hs]
      simp
  have val : '/' ∉ v.Name ∧
      ('/' ∉ v.Namespace ∨ (v.Namespace = td ∧ td ≠ [] ∧ v.Name ≠ [])) := by
    by_cases hs : '/' ∈ toSide m
    · have hseg : segments (toSide m) = 2 := h6.resolve_left ((mem_iff_segments _).1 hs)
      obtain ⟨_, e2, e3⟩ := two_segments _ hseg
      rw [← hval, specValue, if_pos hs]
      exact ⟨e3, Or.inl e2⟩
    · have hseg : segments (toSide m) = 1 := by
        by_contra hne; exact hs ((mem_iff_segments _).2 hne)
      rw [← hval, specValue, if_neg hs]
      exact ⟨hs, Or.inr ⟨rfl, h7 hseg, h3⟩⟩
  refine ⟨key, val.1, val.2, ?_, ?_⟩
  · intro hfd
    obtain ⟨ns, name, e1, e2, e3⟩ := key
    have hns : '/' ∉ ns := by
      rcases e3 with e3 | e3
      · exact e3
      · rw [e3.1]; exact hfd
    rw [e1, List.count_append, List.count_cons_self]
    have a1 : ns.count '/' = 0 := by
      by_contra hne; exact hns ((count_pos_of_mem _ _).2 hne)
    have a2 : name.count '/' = 0 := by
      by_contra hne; exact e2 ((count_pos_of_mem _ _).2 hne)
    omega
  · intro htd
    rcases val.2 with e | e
    · exact e
    · rw [e.1]; exact htd

/-- C8, amended, at the list `a=ns2/b`: its key `ns1/a` has one `/`, and
neither `ns2` nor `b` has one. -/
theorem parseMapping_qualified_witness :
    parseMapping ["a=ns2/b".toList] "ns1".toList []
        = (some [("ns1/a".toList, { Namespace := "ns2".toList, Name := "b".toList })], none) ∧
      (("ns1/a".toList).count '/' = 1 ∧ '/' ∉ "ns2".toList ∧ '/' ∉ "b".toList) := by
  have h := parseMapping_qualified ["a=ns2/b".toList] "ns1".toList []
    [("ns1/a".toList, { Namespace := "ns2".toList, Name := "b".toList })] (by decide)
    "ns1/a".toList { Namespace := "ns2".toList, Name := "b".toList } (by decide)
  exact ⟨by decide, h.2.2.2.1 (by decide), h.2.2.2.2 (by decide), h.2.1⟩

/-! ## Facts about `Create` -/

theorem CreateControllers_eq (ctx : ControllerContext) (controllerNew : Constructor)
    (names : List GoString) (syncers : List Object) :
    CreateControllers ctx controllerNew names syncers =
      match names.find? ctx.Controllers with
      | none => (.ok syncers, groupEvents ctx names)
      | some controller =>
        (match controllerNew (ToRegisterContext ctx) with
          | .error err =>
            .error (Wrapf err ("register ".toList ++ controller ++ " controller".toList))
          | .ok ctrl => .ok (syncers ++ [ctrl]),
          groupEvents ctx names) := by
  induction names with
  | nil => simp [CreateControllers, groupEvents]
  | cons n names ih =>
    by_cases hn : ctx.Controllers n = true
    · simp only [CreateControllers, hn, if_true, List.find?_cons_of_pos, groupEvents,
        List.takeWhile, Bool.not_true, List.map_nil, List.nil_append]
      split <;> rfl
    · have hf : ctx.Controllers n = false := by simpa using hn
      rw [CreateControllers, if_neg hn, ih]
      simp only [List.find?, hf, groupEvents, List.takeWhile, Bool.not_false, List.map_cons,
        List.cons_append]
      split <;> rfl

theorem any_of_find (ctx : ControllerContext) (names : List GoString) :
    names.any ctx.Controllers = (names.find? ctx.Controllers).isSome := by
  induction names with
  | nil => rfl
  | cons n names ih =>
    by_cases hn : ctx.Controllers n = true
    · simp [List.find?, hn]
    · have hf : ctx.Controllers n = false := by simpa using hn
      simp [List.find?, hf, ih]

theorem CreateGroup_ok (ctx : ControllerContext) (k : GoString) (v : List Constructor)
    (syncers : List Object)
    (hok : ∀ c ∈ v, ∃ ctrl, c (ToRegisterContext ctx) = .ok ctrl) :
    CreateGroup ctx k v syncers =
      (.ok (syncers ++ groupUnits ctx (k, v)),
        v.flatMap (fun _ => groupEvents ctx (Split k ','))) := by
  induction v generalizing syncers with
  | nil => simp [CreateGroup, groupUnits, unitsOf]
  | cons c v ih =>
    obtain ⟨ctrl, hc⟩ := hok c (by simp)
    have ih1 := fun s => ih s (fun x hx => hok x (List.mem_cons_of_mem _ hx))
    have hany := any_of_find ctx (Split k ',')
    rw [CreateGroup, CreateControllers_eq]
    cases hf : (Split k ',').find? ctx.Controllers with
    | none =>
      rw [hf] at hany
      simp only [ih1, groupUnits, hany, Option.isSome_none, Bool.false_eq_true, if_false,
        List.append_nil, List.flatMap_cons]
    | some n =>
      rw [hf] at hany
      simp only [hc, ih1, groupUnits, hany, Option.isSome_some, if_true, List.flatMap_cons,
        unitsOf, List.filterMap_cons, List.append_assoc, List.singleton_append]

theorem CreateLoop_ok (ctx : ControllerContext) (registry : List (GoString × List Constructor))
    (syncers : List Object)
    (hok : ∀ g ∈ registry, ∀ c ∈ g.2, ∃ ctrl, c (ToRegisterContext ctx) = .ok ctrl) :
    CreateLoop ctx registry syncers =
      (.ok (syncers ++ registry.flatMap (groupUnits ctx)),
        registry.flatMap (fun g => g.2.flatMap (fun _ => groupEvents ctx (Split g.1 ',')))) := by
  induction registry generalizing syncers with
  | nil => simp [CreateLoop]
  | cons g registry ih =>
    obtain ⟨k, v⟩ := g
    have ih1 := fun s => ih s (fun x hx => hok x (List.mem_cons_of_mem _ hx))
    rw [CreateLoop, CreateGroup_ok ctx k v syncers (hok (k, v) (by simp))]
    simp only [ih1, List.flatMap_cons, List.append_assoc]

theorem unitsOf_length (ctx : ControllerContext) (v : List Constructor)
    (hok : ∀ c ∈ v, ∃ ctrl, c (ToRegisterContext ctx) = .ok ctrl) :
    (unitsOf ctx v).length = v.length := by
  induction v with
  | nil => rfl
  | cons c v ih =>
    obtain ⟨ctrl, hc⟩ := hok c (by simp)
    simp only [unitsOf, List.filterMap_cons, hc, List.length_cons]
    exact congrArg Nat.succ (ih (fun x hx => hok x (List.mem_cons_of_mem _ hx)))

theorem groupEvents_cons_false (ctx : ControllerContext) (b : GoString)
    (names : List GoString) (hb : ctx.Controllers b = false) :
    groupEvents ctx (b :: names) = .lookup b :: groupEvents ctx names := by
  simp only [groupEvents, List.find?, hb, List.takeWhile, Bool.not_false, List.map_cons]
  cases (List.find? ctx.Controllers names) <;> rfl

theorem groupEvents_first (ctx : ControllerContext) (before after : List GoString)
    (n : GoString) (hb : ∀ b ∈ before, ctx.Controllers b = false)
    (hn : ctx.Controllers n = true) :
    groupEvents ctx (before ++ n :: after) =
      before.map .lookup ++ [.lookup n, .construct n] := by
  induction before with
  | nil => simp [groupEvents, List.find?, hn, List.takeWhile]
  | cons b before ih =>
    have hb0 : ctx.Controllers b = false := hb b (by simp)
    have ih1 := ih (fun x hx => hb x (List.mem_cons_of_mem _ hx))
    rw [List.cons_append, groupEvents_cons_false ctx b _ hb0, ih1]
    rfl

/-! ## The claims about `Create` -/

/-- C5: when all constructors succeed, `Create` returns the units of the
fallback groups one group after the other, a group contributing one unit per
registered constructor when one of its alternative names is enabled and none
otherwise; for each constructor of a group the names are consulted in declared
order up to the first enabled one, under which the constructor is invoked
once, and the names after it are not consulted. -/
theorem Create_fallback_groups (registry : List (GoString × List Constructor))
    (ctx : ControllerContext)
    (hok : ∀ g ∈ registry, ∀ c ∈ g.2, ∃ ctrl, c (ToRegisterContext ctx) = .ok ctrl) :
    (Create registry ctx).1 = (some (registry.flatMap (groupUnits ctx)), none) ∧
    (Create registry ctx).2 =
      registry.flatMap (fun g => g.2.flatMap (fun _ => groupEvents ctx (Split g.1 ','))) ∧
    (∀ g ∈ registry, (groupUnits ctx g).length =
      if (Split g.1 ',').any ctx.Controllers then g.2.length else 0) ∧
    (∀ g ∈ registry, ∀ before n after, Split g.1 ',' = before ++ n :: after →
      (∀ b ∈ before, ctx.Controllers b = false) → ctx.Controllers n = true →
      groupEvents ctx (Split g.1 ',') = before.map .lookup ++ [.lookup n, .construct n]) := by
  have h := CreateLoop_ok ctx registry [] hok
  refine ⟨?_, ?_, ?_, ?_⟩
  · simp [Create, h]
  · simp [Create, h]
  · intro g hg
    unfold groupUnits
    split
    · exact unitsOf_length ctx g.2 (hok g hg)
    · rfl
  · intro g _ before n after hsplit hb hn
    rw [hsplit]
    exact groupEvents_first ctx before after n hb hn

/-- C5, on `ResourceControllers` with both `nodes` and `fake-nodes` enabled:
one unit, constructed once under the name `nodes`; `fake-nodes` is not
consulted. -/
theorem Create_fallback_groups_witness :
    (Create (ResourceControllers samplePackages)
        (sampleContext ["nodes".toList, "fake-nodes".toList] sampleOptions)).1
      = (some [sampleUnit "nodes".toList], none) ∧
    constructs (Create (ResourceControllers samplePackages)
        (sampleContext ["nodes".toList, "fake-nodes".toList] sampleOptions)).2
      = ["nodes".toList] ∧
    CreateEvent.lookup "fake-nodes".toList ∉
      (Create (ResourceControllers samplePackages)
        (sampleContext ["nodes".toList, "fake-nodes".toList] sampleOptions)).2 := by
  have h := Create_fallback_groups (ResourceControllers samplePackages)
    (sampleContext ["nodes".toList, "fake-nodes".toList] sampleOptions)
    (by simp [ResourceControllers, newControllers, samplePackages])
  refine ⟨h.1.trans (by decide), ?_, ?_⟩
  · rw [h.2.1]; decide
  · rw [h.2.1]; decide

theorem constructs_append (a b : List CreateEvent) :
    constructs (a ++ b) = constructs a ++ constructs b := by
  simp [constructs, List.filterMap_append]

theorem constructs_groupEvents (ctx : ControllerContext) (names : List GoString) :
    constructs (groupEvents ctx names) =
      match names.find? ctx.Controllers with
      | none => []
      | some controller => [controller] := by
  have hl : ∀ l : List GoString, constructs (l.map .lookup) = [] := by
    intro l
    induction l with
    | nil => rfl
    | cons a l ih => simp [constructs]
  unfold groupEvents
  cases names.find? ctx.Controllers with
  | none => exact hl _
  | some n =>
    rw [constructs_append, hl]
    rfl

theorem runCalls_cons_ok (ctx : ControllerContext) (n : GoString) (c : Constructor)
    (cs : List (GoString × Constructor)) (syncers : List Object) (ctrl : Object)
    (hc : c (ToRegisterContext ctx) = .ok ctrl) :
    runCalls ctx ((n, c) :: cs) syncers =
      ((runCalls ctx cs (syncers ++ [ctrl])).1, n :: (runCalls ctx cs (syncers ++ [ctrl])).2) := by
  rw [runCalls, hc]

theorem runCalls_cons_error (ctx : ControllerContext) (n : GoString) (c : Constructor)
    (cs : List (GoString × Constructor)) (syncers : List Object) (e : Err)
    (hc : c (ToRegisterContext ctx) = .error e) :
    runCalls ctx ((n, c) :: cs) syncers =
      (.error (Wrapf e ("register ".toList ++ n ++ " controller".toList)), [n]) := by
  rw [runCalls, hc]

theorem runCalls_append (ctx : ControllerContext) (a b : List (GoString × Constructor))
    (syncers : List Object) :
    runCalls ctx (a ++ b) syncers =
      match runCalls ctx a syncers with
      | (.error err, names) => (.error err, names)
      | (.ok syncers1, names) =>
        ((runCalls ctx b syncers1).1, names ++ (runCalls ctx b syncers1).2) := by
  induction a generalizing syncers with
  | nil => simp [runCalls]
  | cons x a ih =>
    obtain ⟨n, c⟩ := x
    cases hc : c (ToRegisterContext ctx) with
    | error e =>
      rw [List.cons_append, runCalls_cons_error ctx n c _ _ e hc,
        runCalls_cons_error ctx n c _ _ e hc]
    | ok ctrl =>
      rw [List.cons_append, runCalls_cons_ok ctx n c _ _ ctrl hc,
        runCalls_cons_ok ctx n c _ _ ctrl hc, ih]
      cases hr : runCalls ctx a (syncers ++ [ctrl]) with
      | mk r names =>
        cases r with
        | error e => rfl
        | ok s1 => rfl

theorem CreateGroup_runCalls (ctx : ControllerContext) (k : GoString) (v : List Constructor)
    (syncers : List Object) :
    (CreateGroup ctx k v syncers).1 = (runCalls ctx (calls ctx [(k, v)]) syncers).1 ∧
      constructs (CreateGroup ctx k v syncers).2 =
        (runCalls ctx (calls ctx [(k, v)]) syncers).2 := by
  induction v generalizing syncers with
  | nil =>
    simp only [CreateGroup, calls, List.flatMap_cons, List.flatMap_nil, List.append_nil,
      List.map_nil]
    cases (Split k ',').find? ctx.Controllers <;> simp [runCalls, constructs]
  | cons c v ih =>
    rw [CreateGroup, CreateControllers_eq]
    simp only [calls, List.flatMap_cons, List.flatMap_nil, List.append_nil] at ih ⊢
    have hcon := constructs_groupEvents ctx (Split k ',')
    cases hf : (Split k ',').find? ctx.Controllers with
    | none =>
      rw [hf] at hcon
      have ih1 := ih syncers
      rw [hf] at ih1
      simp only [List.map_cons, List.map_nil] at ih1 ⊢
      exact ⟨ih1.1, by rw [constructs_append, hcon, ih1.2]; rfl⟩
    | some n =>
      rw [hf] at hcon
      simp only [List.map_cons]
      cases hc : c (ToRegisterContext ctx) with
      | error e =>
        simp only [runCalls, hc]
        exact ⟨trivial, hcon⟩
      | ok ctrl =>
        have ih1 := ih (syncers ++ [ctrl])
        rw [hf] at ih1
        simp only [runCalls, hc]
        exact ⟨ih1.1, by rw [constructs_append, hcon, ih1.2]; rfl⟩

theorem CreateLoop_runCalls (ctx : ControllerContext)
    (registry : List (GoString × List Constructor)) (syncers : List Object) :
    (CreateLoop ctx registry syncers).1 = (runCalls ctx (calls ctx registry) syncers).1 ∧
      constructs (CreateLoop ctx registry syncers).2 =
        (runCalls ctx (calls ctx registry) syncers).2 := by
  induction registry generalizing syncers with
  | nil => exact ⟨rfl, rfl⟩
  | cons g registry ih =>
    obtain ⟨k, v⟩ := g
    have hsplit : calls ctx ((k, v) :: registry) = calls ctx [(k, v)] ++ calls ctx registry := by
      simp [calls]
    obtain ⟨h1, h2⟩ := CreateGroup_runCalls ctx k v syncers
    rw [CreateLoop, hsplit, runCalls_append]
    cases hg : CreateGroup ctx k v syncers with
    | mk r events =>
      rw [hg] at h1 h2
      cases hr : runCalls ctx (calls ctx [(k, v)]) syncers with
      | mk r1 names =>
        rw [hr] at h1 h2
        simp only at h1 h2
        subst h1 h2
        cases r with
        | error e => exact ⟨rfl, rfl⟩
        | ok s1 =>
          obtain ⟨i1, i2⟩ := ih s1
          exact ⟨i1, by rw [constructs_append, i2]⟩

theorem runCalls_failure (ctx : ControllerContext) (pre post : List (GoString × Constructor))
    (n : GoString) (c : Constructor) (e : Err) (syncers : List Object)
    (hpre : ∀ p ∈ pre, ∃ ctrl, p.2 (ToRegisterContext ctx) = .ok ctrl)
    (hc : c (ToRegisterContext ctx) = .error e) :
    runCalls ctx (pre ++ (n, c) :: post) syncers =
      (.error (Wrapf e ("register ".toList ++ n ++ " controller".toList)),
        pre.map Prod.fst ++ [n]) := by
  induction pre generalizing syncers with
  | nil => simp [runCalls, hc]
  | cons x pre ih =>
    obtain ⟨m, d⟩ := x
    obtain ⟨ctrl, hd⟩ := hpre (m, d) (by simp)
    have ih1 := ih (syncers ++ [ctrl]) (fun y hy => hpre y (List.mem_cons_of_mem _ hy))
    rw [List.cons_append, runCalls_cons_ok ctx m d _ _ ctrl hd, ih1]
    rfl

/-- C9: if, among the constructor invocations `Create` is to make, one
returns an error after all the earlier ones succeeded, then `Create` returns
the nil list and the constructor's error wrapped as `register <name>
controller`, where `<name>` is the first enabled alternative of its group,
and no constructor is invoked after it. -/
theorem Create_constructor_failure (registry : List (GoString × List Constructor))
    (ctx : ControllerContext) (pre post : List (GoString × Constructor))
    (n : GoString) (c : Constructor) (e : Err)
    (hcalls : calls ctx registry = pre ++ (n, c) :: post)
    (hpre : ∀ p ∈ pre, ∃ ctrl, p.2 (ToRegisterContext ctx) = .ok ctrl)
    (hc : c (ToRegisterContext ctx) = .error e) :
    (Create registry ctx).1 =
      (none, some ("register ".toList ++ n ++ " controller".toList ++ ": ".toList ++ e)) ∧
    constructs (Create registry ctx).2 = pre.map Prod.fst ++ [n] := by
  obtain ⟨h1, h2⟩ := CreateLoop_runCalls ctx registry []
  rw [hcalls, runCalls_failure ctx pre post n c e [] hpre hc] at h1 h2
  simp only at h1 h2
  unfold Create
  cases hl : CreateLoop ctx registry [] with
  | mk r events =>
    rw [hl] at h1 h2
    simp only at h1 h2
    subst h1
    exact ⟨rfl, h2⟩

/-- C9, on `ResourceControllers` with `services`, `fake-nodes` and
`serviceaccounts` enabled and a failing `nodes.New`: the error names
`fake-nodes`, and the constructor of `serviceaccounts` is not invoked. -/
theorem Create_constructor_failure_witness :
    (Create (ResourceControllers failingNodesPackages)
        (sampleContext ["services".toList, "fake-nodes".toList, "serviceaccounts".toList]
          sampleOptions)).1
      = (none, some "register fake-nodes controller: boom".toList) ∧
    constructs (Create (ResourceControllers failingNodesPackages)
        (sampleContext ["services".toList, "fake-nodes".toList, "serviceaccounts".toList]
          sampleOptions)).2
      = ["services".toList, "fake-nodes".toList] :=
  Create_constructor_failure (ResourceControllers failingNodesPackages)
    (sampleContext ["services".toList, "fake-nodes".toList, "serviceaccounts".toList]
      sampleOptions)
    [("services".toList, samplePackages.servicesNew)]
    [("serviceaccounts".toList, samplePackages.serviceaccountsNew)]
    "fake-nodes".toList failingNodesPackages.nodesNew "boom".toList rfl
    (by simp [samplePackages]) rfl

/-! ## The claim about `RegisterControllers` -/

theorem registerSyncers_rejects (c : Collaborators) (pre post : List Object) (u : Object)
    (hpre : ∀ p ∈ pre, (p.isFakeSyncer = true ∧ c.RegisterFakeSyncer p = none) ∨
      (p.isFakeSyncer = false ∧ p.isSyncer = true ∧ c.RegisterSyncer p = none))
    (hu : u.isFakeSyncer = false ∧ u.isSyncer = false) :
    registerSyncers c (pre ++ u :: post) =
      (some ("syncer ".toList ++ u.Name ++
        " does not implement fake syncer or syncer interface".toList), pre.map handOver) := by
  induction pre with
  | nil => simp [registerSyncers, hu.1, hu.2]
  | cons p pre ih =>
    have ih1 := ih (fun y hy => hpre y (List.mem_cons_of_mem _ hy))
    rw [List.cons_append, registerSyncers, ih1]
    rcases hpre p (by simp) with ⟨h1, h2⟩ | ⟨h1, h2, h3⟩
    · simp [h1, h2, handOver]
    · simp [h1, h2, h3, handOver]

/-- C6: when the always-on controllers register without error, every unit
before `u` implements one of the two interfaces and registers without error,
and `u` implements neither `FakeSyncer` nor `Syncer`, then
`RegisterControllers` returns an error whose message contains `u.Name`, after
handing every unit before `u` to its registration path and no unit after. -/
theorem RegisterControllers_rejects (c : Collaborators) (ctx : ControllerContext)
    (pre post : List Object) (u : Object)
    (h1 : c.k8sdefaultendpointRegister = none)
    (h2 : ctx.Options.EnforcePodSecurityStandard ≠ [] → registerPodSecurityController c = none)
    (h3 : registerCoreDNSController c = none)
    (h4 : registerInitManifestsController c ctx = none)
    (h5 : (registerServiceSyncControllers c ctx).1 = none)
    (hpre : ∀ p ∈ pre, (p.isFakeSyncer = true ∧ c.RegisterFakeSyncer p = none) ∨
      (p.isFakeSyncer = false ∧ p.isSyncer = true ∧ c.RegisterSyncer p = none))
    (hu : u.isFakeSyncer = false ∧ u.isSyncer = false) :
    (RegisterControllers c ctx (pre ++ u :: post)).1 =
      some ("syncer ".toList ++ u.Name ++
        " does not implement fake syncer or syncer interface".toList) ∧
    u.Name <:+: ("syncer ".toList ++ u.Name ++
        " does not implement fake syncer or syncer interface".toList) ∧
    (RegisterControllers c ctx (pre ++ u :: post)).2 =
      (registerServiceSyncControllers c ctx).2 ++ pre.map handOver := by
  have hpod : (if ctx.Options.EnforcePodSecurityStandard ≠ []
      then registerPodSecurityController c else none) = none := by
    split
    · rename_i h; exact h2 h
    · rfl
  have hs := registerSyncers_rejects c pre post u hpre hu
  have hr : RegisterControllers c ctx (pre ++ u :: post) =
      (some ("syncer ".toList ++ u.Name ++
        " does not implement fake syncer or syncer interface".toList),
        (registerServiceSyncControllers c ctx).2 ++ pre.map handOver) := by
    unfold RegisterControllers
    rw [h1, hpod, h3, h4]
    cases hsvc : registerServiceSyncControllers c ctx with
    | mk e events =>
      rw [hsvc] at h5
      simp only at h5
      subst h5
      simp only [hs]
  rw [hr]
  exact ⟨rfl, ⟨"syncer ".toList,
    " does not implement fake syncer or syncer interface".toList, rfl⟩, rfl⟩

/-- C6, on the list `services`, `broken`, `pods`: the error names `broken`,
`services` was handed to `RegisterSyncer` and `pods` to nothing. -/
theorem RegisterControllers_rejects_witness :
    (RegisterControllers sampleCollaborators (sampleContext [] sampleOptions)
        ([sampleUnit "services".toList] ++ brokenUnit :: [sampleUnit "pods".toList])).1
      = some "syncer broken does not implement fake syncer or syncer interface".toList ∧
    (RegisterControllers sampleCollaborators (sampleContext [] sampleOptions)
        ([sampleUnit "services".toList] ++ brokenUnit :: [sampleUnit "pods".toList])).2
      = [.realSyncer (sampleUnit "services".toList)] := by
  have h := RegisterControllers_rejects sampleCollaborators (sampleContext [] sampleOptions)
    [sampleUnit "services".toList] [sampleUnit "pods".toList] brokenUnit rfl (fun _ => rfl)
    rfl rfl rfl (by decide) (by decide)
  exact ⟨h.1, h.2.2⟩

end Vcluster
